import Mathlib

/-!
Verification of the std2bids repository core (src/std2bids).

This file shallowly embeds, from the Python source:
* the decimal / integer string handling used by the UKB data-field
  descriptors (`models/ukb.py`: `DataField.to_str`, `DataField.from_str`,
  `DataField.extention`, `DataField.to_filename`), including a model of
  Python's `str.split("_")` and `int(...)` parsing;
* the branch-checkout protocol of participant stage transitions
  (`models/abstract.py`: `checkout_or_create`, `convert_raw_to_native`,
  `convert_native_to_bids`; `models/ukb.py`: `UKBParticipant.get_raw`);
* the stage dispatch of `Participant.do` (`models/abstract.py`), modelling
  Python coroutine semantics (calling an `async def` without `await`
  creates a coroutine and runs none of its body);
* the artifact handling of `UKBFetcher.fetch` (`models/ukb.py`);
* the worklist builder `get_ukb` and the run coordinator `flow` / `main`
  (`flows/ukb.py`), with polars operations modelled as list pipelines.
-/

deriving instance DecidableEq for Except

namespace Std2Bids

/-! ### Decimal rendering of integers (Python `str()` / f-string of an int) -/

/-- A decimal digit as a character. -/
def digitChar (d : Nat) : Char := Char.ofNat (48 + d)

/-- Value of a list of decimal digit characters. -/
def digitsVal (l : List Char) : Nat := l.foldl (fun n c => 10 * n + (c.toNat - 48)) 0

/-- Fuel-driven decimal rendering of a natural number (most significant first). -/
def natReprCore : Nat → Nat → List Char
  | 0, _ => []
  | fuel + 1, n =>
    if n < 10 then [digitChar n] else natReprCore fuel (n / 10) ++ [digitChar (n % 10)]

/-- Decimal rendering of a natural number. -/
def natReprL (n : Nat) : List Char := natReprCore (n + 1) n

/-- Decimal rendering of an integer, as Python renders an `int`. -/
def intReprL (n : Int) : List Char :=
  if n < 0 then '-' :: natReprL n.natAbs else natReprL n.toNat

/-- Decimal rendering of an integer as a `String`. -/
def intRepr (n : Int) : String := ⟨intReprL n⟩

/-! ### Python `int(...)` parsing and `str.split` (ASCII model) -/

/-- Whitespace stripped by Python's `int()` (ASCII model of `str.strip`). -/
def isPySpace (c : Char) : Bool :=
  c = ' ' || c = '\t' || c = '\n' || c = '\r' || c = '\x0b' || c = '\x0c'

/-- Strip leading and trailing whitespace. -/
def stripWS (l : List Char) : List Char :=
  ((l.dropWhile isPySpace).reverse.dropWhile isPySpace).reverse

/-- Python `int(token)` for a token containing no underscore (tokens produced
by `value.split("_")` never contain one): optional sign then decimal digits,
surrounding whitespace ignored; `none` models `ValueError`. -/
def pyIntL (l : List Char) : Option Int :=
  if (stripWS l).isEmpty then none
  else if (stripWS l).headD ' ' = '-' then
    if (stripWS l).tail ≠ [] ∧ (stripWS l).tail.all Char.isDigit then
      some (-(digitsVal (stripWS l).tail : Int))
    else none
  else if (stripWS l).headD ' ' = '+' then
    if (stripWS l).tail ≠ [] ∧ (stripWS l).tail.all Char.isDigit then
      some ((digitsVal (stripWS l).tail : Int))
    else none
  else if (stripWS l).all Char.isDigit then some ((digitsVal (stripWS l) : Int)) else none

/-- Python `str.split(sep)` for a single-character separator. -/
def splitOnChar (sep : Char) : List Char → List (List Char)
  | [] => [[]]
  | c :: cs =>
    let r := splitOnChar sep cs
    if c = sep then [] :: r else (c :: r.headD []) :: r.tail

/-! ### `DataField` (models/ukb.py) -/

/-- The allowed UKB category ids: `typing.Literal` alias `Field` in models/ukb.py
(commented-out entries of the source list are not members). -/
def fieldIds : List Int :=
  [20227, 20249, 20252, 20263,
   25750, 25751, 25752, 25753, 25754, 25755,
   31000, 31001, 31002, 31003, 31004, 31005, 31006, 31007, 31008,
   31009, 31010, 31011, 31012, 31013,
   31014, 31015, 31016, 31017, 31018, 31019, 31020, 31021, 31022,
   31023, 31024, 31025, 31026, 31027, 31028]

/-- The allowed instances: `typing.Literal[2, 3]`. -/
def instanceIds : List Int := [2, 3]

/-- Errors of `DataField.from_str`: `parse` models Python `ValueError`
(wrong token count or `int()` failure), `validation` models the pydantic
`ValidationError` for a value outside the `Literal` domains. -/
inductive DFError
  | parse
  | validation
deriving DecidableEq

/-- `DataField` (pydantic model, frozen): `field : Field`, `instance : Instance`,
`array : int = 0`.  Domain membership of `field` and `instance` is checked by
`from_str` below, mirroring pydantic validation. -/
structure DataField where
  field : Int
  «instance» : Int
  array : Int
deriving DecidableEq

/-- `DataField.extention`: categories in Python `range(25750, 25756)` use the
text extension, all others the archive extension. -/
def DataField.extention (df : DataField) : String :=
  if 25750 ≤ df.field ∧ df.field < 25756 then "txt" else "zip"

/-- `DataField.to_str`: the canonical key f-string `"{field}_{instance}_{array}"`,
as a character list. -/
def DataField.toStrL (df : DataField) : List Char :=
  intReprL df.field ++ '_' :: intReprL df.«instance» ++ '_' :: intReprL df.array

/-- `DataField.to_str` as a `String`. -/
def DataField.to_str (df : DataField) : String := ⟨df.toStrL⟩

/-- `DataField.to_filename`: `"{eid}_{to_str}.{extention}"`. -/
def DataField.to_filename (df : DataField) (eid : Int) : String :=
  ⟨intReprL eid ++ '_' :: df.toStrL ++ '.' :: df.extention.data⟩

/-- `DataField.from_str`: split on `"_"`, require exactly three tokens, parse
each with `int(...)`, then validate the `field` and `instance` domains. -/
def DataField.from_str (value : String) : Except DFError DataField :=
  let keys := splitOnChar '_' value.data
  if keys.length = 3 then
    match pyIntL (keys.getD 0 []), pyIntL (keys.getD 1 []), pyIntL (keys.getD 2 []) with
    | some k0, some k1, some k2 =>
      if k0 ∈ fieldIds ∧ k1 ∈ instanceIds then .ok ⟨k0, k1, k2⟩ else .error .validation
    | _, _, _ => .error .parse
  else .error .parse

/-- The canonical string `"<category>_<instance>_<array>"` with each token in
decimal rendering. -/
def canonicalStr (c i a : Int) : String :=
  ⟨intReprL c ++ '_' :: intReprL i ++ '_' :: intReprL a⟩

/-! ### Versioned subject workspace: branch protocol (models/abstract.py) -/

/-- Branch names (`Participant` field defaults). -/
def branch_incoming : String := "incoming"

def branch_native : String := "incoming-native"

def branch_bids : String := "bids"

def branch_main : String := "main"

/-- Observable state of one subject's workspace: files in the working
directory, the retrieval ledger `.ukbbatch` content (lines) when it exists,
the active branch, and the set of existing branches. -/
structure ParticipantState where
  files : List String
  ledger : Option (List String)
  active : String
  branches : List String
deriving DecidableEq

/-- Effects recorded by one `get_raw` run: number of `ukbfetch` invocations
and number of `repo.save` commits. -/
structure RetrieveLog where
  fetches : Nat
  commits : Nat
deriving DecidableEq

/-- `repo.checkout(branch)`: fails when the branch does not exist. -/
def checkout (b : String) (st : ParticipantState) : Option ParticipantState :=
  if b ∈ st.branches then some { st with active := b } else none

/-- `Participant.checkout_or_create`: checkout, creating the branch (`-b`)
when it is not among `repo.get_branches()`. -/
def checkout_or_create (b : String) (st : ParticipantState) : ParticipantState :=
  if b ∈ st.branches then { st with active := b }
  else { st with active := b, branches := b :: st.branches }

/-- One ledger / batch line: `f"{self.label} {datafield.to_str()}"`. -/
def bulkLine (label : Int) (df : DataField) : String :=
  ⟨intReprL label ++ ' ' :: df.toStrL⟩

/-- The fetch batch built by `get_raw`: descriptors whose derived file name
does not yet exist locally, in `datafields` order. -/
def fetchBatch (label : Int) (datafields : List DataField) (files : List String) :
    List String :=
  datafields.filterMap fun df =>
    if df.to_filename label ∈ files then none else some (bulkLine label df)

/-- `UKBParticipant.get_raw` (models/ukb.py): remember the active branch,
checkout-or-create `incoming`, build the batch of missing files; when the
batch is non-empty, fetch (`fetchedFiles` are the files the external
`ukbfetch` process and the log artifacts add to the directory), rewrite the
ledger as the Python `set` of the new batch plus the old ledger lines
(modelled by `dedup`; only deduplication is relied upon, the `set` iteration
order is unspecified), and commit three times; in both paths finally restore
the previously active branch. -/
def UKBParticipant.get_raw (label : Int) (datafields : List DataField)
    (fetchedFiles : List String) (st : ParticipantState) :
    Option (ParticipantState × RetrieveLog) :=
  let old := st.active
  let st1 := checkout_or_create branch_incoming st
  let bulklist := fetchBatch label datafields st1.files
  if bulklist.isEmpty then
    (checkout old st1).map fun st2 => (st2, ⟨0, 0⟩)
  else
    let oldBatch := st1.ledger.getD []
    let newLedger := (bulklist ++ oldBatch).dedup
    let st2 := { st1 with files := st1.files ++ fetchedFiles, ledger := some newLedger }
    (checkout old st2).map fun st3 => (st3, ⟨1, 3⟩)

/-- `Participant.convert_raw_to_native` (branch protocol): remember the
active branch, checkout `incoming`, checkout-or-create `incoming-native`,
run the external unpack transform and save (no branch effect), restore the
previously active branch. -/
def Participant.convert_raw_to_native (st : ParticipantState) :
    Option ParticipantState := do
  let old := st.active
  let st1 ← checkout branch_incoming st
  let st2 := checkout_or_create branch_native st1
  checkout old st2

/-- `Participant.convert_native_to_bids` (branch protocol): remember the
active branch, checkout `incoming-native`, checkout-or-create `bids`, run the
reorganize transform and save, restore the old branch and clean, checkout
`main`, merge `bids` into it, and restore the old branch again. -/
def Participant.convert_native_to_bids (st : ParticipantState) :
    Option ParticipantState := do
  let old := st.active
  let st1 ← checkout branch_native st
  let st2 := checkout_or_create branch_bids st1
  let st3 ← checkout old st2
  let st4 ← checkout branch_main st3
  checkout old st4

/-! ### Stage dispatch of `Participant.do` (models/abstract.py) -/

/-- Stage-level events of one subject's pipeline. -/
inductive StageEv
  | retrieve
  | unpack
  | reorganize
  | mergeEv
  | finalizeEv
  | coroutineCreated
deriving DecidableEq

/-- The body of `UKBParticipant.get_raw` performs the retrieval work. -/
def UKBParticipant.get_raw_body : List StageEv := [.retrieve]

/-- Python coroutine semantics: calling an `async def` function without
`await` creates a coroutine object and executes none of its body. -/
def callUnawaited (_body : List StageEv) : List StageEv := [.coroutineCreated]

/-- `Participant.do`: `self.get_raw()` (an async method, called without
`await` — `do` is synchronous), then `convert_raw_to_native` (unpack), then
`convert_native_to_bids` (reorganize + merge into main), then `finalize`. -/
def Participant.do_events : List StageEv :=
  callUnawaited UKBParticipant.get_raw_body
    ++ [.unpack] ++ [.reorganize, .mergeEv] ++ [.finalizeEv]

/-! ### `UKBFetcher` (models/ukb.py) -/

/-- `UKBFetcher` configuration after pydantic validation. -/
structure UKBFetcherM where
  max_workers : Int
deriving DecidableEq

/-- Constructing a `UKBFetcher`: pydantic validates
`max_workers: int = pydantic.Field(ge=1, le=20, default=1)`. -/
def mkUKBFetcher (max_workers : Int) : Option UKBFetcherM :=
  if 1 ≤ max_workers ∧ max_workers ≤ 20 then some ⟨max_workers⟩ else none

/-- `UKBFetcher.fetch` file handling: both artifact paths are built from the
timestamp (`now`, with `:` already replaced by `-`); the source assigns
`dst / f"{now}.stderr"` to `stderr_file` and also to `stdout_file`, writes
`stderr` then `stdout`, and returns `(stderr_file, stdout_file)`.  The first
component of the result is the ordered list of writes, the second the
returned pair of paths. -/
def UKBFetcher.fetchWrites (dst now stdoutStream stderrStream : String) :
    List (String × String) × (String × String) :=
  let stderr_file := dst ++ "/" ++ now ++ ".stderr"
  let stdout_file := dst ++ "/" ++ now ++ ".stderr"
  ([(stderr_file, stderrStream), (stdout_file, stdoutStream)],
   (stderr_file, stdout_file))

/-- Apply a sequence of file writes to a directory (association list from
path to content); a later write to the same path overwrites. -/
def writeFiles (fs : List (String × String)) (writes : List (String × String)) :
    List (String × String) :=
  writes.foldl (fun acc w => (acc.filter fun p => p.1 ≠ w.1) ++ [w]) fs

/-! ### Worklist builder `get_ukb` (flows/ukb.py) -/

/-- A columnar source frame: field column names, and rows of
(eid, cells aligned with `cols`); a `none` cell is a null. -/
structure UKBFrame where
  cols : List String
  rows : List (Int × List (Option String))

/-- The mandatory T1-structural column filtered on by `get_ukb`. -/
def mandCol : String := "20252-2.0"

/-- Python/polars `starts_with` on column names. -/
def strStarts (s p : String) : Bool := decide (s.data.take p.data.length = p.data)

/-- The columns kept by `.select("eid", *fields)` where
`fields = [s.starts_with(str(x)) for x in typing.get_args(Field)]`: selector
order (category-enumeration order), matching columns in source order within
each selector. -/
def selCols (cols : List String) : List String :=
  fieldIds.flatMap fun f => cols.filter fun c => strStarts c (intRepr f)

/-- The cell of a row under a column name (`none` when the column is absent
or the cell is null). -/
def cellOf (cols : List String) (cells : List (Option String)) (c : String) :
    Option String :=
  (List.lookup c (cols.zip cells)).join

/-- The filter `pl.col("20252-2.0").is_not_null()`. -/
def rowMandatory (cols : List String) (r : Int × List (Option String)) : Bool :=
  (cellOf cols r.2 mandCol).isSome

/-- `.melt(id_vars="eid")` of the selected, filtered frame, in polars
variable-major row order, keeping (eid, value). -/
def melted (df : UKBFrame) : List (Int × Option String) :=
  (selCols df.cols).flatMap fun c =>
    (df.rows.filter (rowMandatory df.cols)).map fun r => (r.1, cellOf df.cols r.2 c)

/-- `.drop_nulls()` after the melt. -/
def meltedNN (df : UKBFrame) : List (Int × Option String) :=
  (melted df).filter fun p => p.2.isSome

/-- The group keys after `.group_by("eid")` and `.sort("eid")`: the distinct
eids, ascending. -/
def outEids (df : UKBFrame) : List Int :=
  List.insertionSort (· ≤ ·) ((meltedNN df).map fun p => p.1).dedup

/-- `get_ukb`: one output row per distinct eid (ascending), its `value` list
collecting that eid's non-null melted values in frame order. -/
def get_ukb (df : UKBFrame) : List (Int × List String) :=
  (outEids df).map fun e =>
    (e, (meltedNN df).filterMap fun p => if p.1 = e then p.2 else none)

/-- The claim's notion of source order for one row: the row's non-null
selected cells in the source's own column order (not the selector order). -/
def specSourceOrderFields (cols : List String) (cells : List (Option String)) :
    List String :=
  (cols.zip cells).filterMap fun p =>
    if fieldIds.any (fun f => strStarts p.1 (intRepr f)) then p.2 else none

/-! ### Run coordinator `flow` / `main` (flows/ukb.py) -/

/-- Run-coordinator events, in program order. -/
inductive FlowEv
  | spawned (eid : Int)
  | skippedEv (eid : Int)
  | manifestWrite (rows : List (String × String))
deriving DecidableEq

/-- Python `",".join`. -/
def joinComma : List String → String
  | [] => ""
  | [s] => s
  | s :: rest => s ++ "," ++ joinComma rest

/-- One manifest row: `participant_label = "sub-" + eid`,
`fields = ",".join(value)`. -/
def manifestRow (r : Int × List String) : String × String :=
  ("sub-" ++ intRepr r.1, joinComma r.2)

/-- The subject loop of `flow`: enumerate the worklist; a subject whose
destination exists is skipped when `shortcut` is set, otherwise its pipeline
is spawned; after handling index `i` the loop breaks when
`i >= max_participants` (`none` models the default `float("inf")`). -/
def flowLoop (dstExists : Int → Bool) (shortcut : Bool) (maxP : Option Nat) :
    Nat → List (Int × List String) → List FlowEv
  | _, [] => []
  | i, r :: rest =>
    let ev := if dstExists r.1 && shortcut then FlowEv.skippedEv r.1 else FlowEv.spawned r.1
    let stop := match maxP with
      | none => false
      | some m => decide (m ≤ i)
    if stop then [ev] else ev :: flowLoop dstExists shortcut maxP (i + 1) rest

/-- `flow`: run the subject loop to completion (the task group joins all
tasks), then, when `do_participants` is set, write the manifest built from
the whole worklist frame `d`. -/
def flowEvents (work : List (Int × List String)) (dstExists : Int → Bool)
    (shortcut : Bool) (maxP : Option Nat) (do_participants : Bool) : List FlowEv :=
  flowLoop dstExists shortcut maxP 0 work
    ++ (if do_participants then [FlowEv.manifestWrite (work.map manifestRow)] else [])

/-- The subjects whose pipeline was spawned. -/
def processedEids (evs : List FlowEv) : List Int :=
  evs.filterMap fun e =>
    match e with
    | .spawned x => some x
    | _ => none

/-- `main` validation: `if args.max_workers > 20: raise ValueError(...)`
before `asyncio.run(flow(...))` starts any subject work. -/
def mainRun (max_workers : Int) (work : List (Int × List String))
    (dstExists : Int → Bool) (shortcut : Bool) (maxP : Option Nat)
    (do_participants : Bool) : Except String (List FlowEv) :=
  if max_workers > 20 then
    .error "UKB does not allow more than 20 simultaneous connections"
  else
    .ok (flowEvents work dstExists shortcut maxP do_participants)

/-! ### Lemmas: decimal rendering round-trips through Python `int` parsing -/

theorem digitChar_isDigit {d : Nat} (h : d < 10) : (digitChar d).isDigit = true := by
  interval_cases d <;> decide

theorem digitChar_toNat {d : Nat} (h : d < 10) : (digitChar d).toNat - 48 = d := by
  interval_cases d <;> decide

theorem digitsVal_append (l : List Char) (c : Char) :
    digitsVal (l ++ [c]) = 10 * digitsVal l + (c.toNat - 48) := by
  simp [digitsVal, List.foldl_append]

theorem natReprCore_val :
    ∀ (fuel n : Nat), n < 10 ^ fuel →
      (∀ c ∈ natReprCore fuel n, c.isDigit = true) ∧ digitsVal (natReprCore fuel n) = n := by
  intro fuel
  induction fuel with
  | zero =>
    intro n hn
    have : n = 0 := by simpa using hn
    subst this
    exact ⟨by simp [natReprCore], by simp [natReprCore, digitsVal]⟩
  | succ fuel ih =>
    intro n hn
    by_cases h10 : n < 10
    · refine ⟨?_, ?_⟩
      · intro c hc
        simp only [natReprCore, if_pos h10, List.mem_singleton] at hc
        exact hc ▸ digitChar_isDigit h10
      · simp only [natReprCore, if_pos h10]
        have := digitChar_toNat h10
        simp [digitsVal]
        omega
    · have hdiv : n / 10 < 10 ^ fuel := by
        have : n < 10 ^ fuel * 10 := by
          have := pow_succ 10 fuel
          omega
        omega
      obtain ⟨hdig, hval⟩ := ih (n / 10) hdiv
      have hm : n % 10 < 10 := Nat.mod_lt _ (by norm_num)
      refine ⟨?_, ?_⟩
      · intro c hc
        simp only [natReprCore, if_neg h10, List.mem_append, List.mem_singleton] at hc
        rcases hc with hc | rfl
        · exact hdig c hc
        · exact digitChar_isDigit hm
      · simp only [natReprCore, if_neg h10]
        rw [digitsVal_append, hval, digitChar_toNat hm]
        omega

theorem natReprL_spec (n : Nat) :
    natReprL n ≠ [] ∧ (∀ c ∈ natReprL n, c.isDigit = true) ∧
      digitsVal (natReprL n) = n := by
  have hb : n < 10 ^ (n + 1) := by
    calc n < 10 ^ n := Nat.lt_pow_self (by norm_num) n
    _ ≤ 10 ^ (n + 1) := Nat.pow_le_pow_right (by norm_num) (Nat.le_succ n)
  refine ⟨?_, (natReprCore_val (n + 1) n hb).1, (natReprCore_val (n + 1) n hb).2⟩
  unfold natReprL natReprCore
  split <;> simp

theorem intReprL_chars (n : Int) : ∀ c ∈ intReprL n, c = '-' ∨ c.isDigit = true := by
  intro c hc
  unfold intReprL at hc
  split at hc
  · rcases List.mem_cons.mp hc with rfl | hcm
    · exact Or.inl rfl
    · exact Or.inr ((natReprL_spec _).2.1 c hcm)
  · exact Or.inr ((natReprL_spec _).2.1 c hc)

theorem isDigit_not_pySpace {c : Char} (h : c.isDigit = true) : isPySpace c = false := by
  rw [Bool.eq_false_iff]
  intro hs
  unfold isPySpace at hs
  simp only [Bool.or_eq_true, decide_eq_true_eq] at hs
  rcases hs with ((((rfl | rfl) | rfl) | rfl) | rfl) | rfl <;> exact absurd h (by decide)

theorem intReprL_not_pySpace (n : Int) : ∀ c ∈ intReprL n, isPySpace c = false := by
  intro c hc
  rcases intReprL_chars n c hc with rfl | hd
  · decide
  · exact isDigit_not_pySpace hd

theorem dropWhile_eq_self_of {p : Char → Bool} {l : List Char}
    (h : ∀ c ∈ l, p c = false) : l.dropWhile p = l := by
  cases l with
  | nil => rfl
  | cons a t => simp [List.dropWhile_cons, h a (List.mem_cons_self a t)]

theorem stripWS_eq_self {l : List Char} (h : ∀ c ∈ l, isPySpace c = false) :
    stripWS l = l := by
  unfold stripWS
  rw [dropWhile_eq_self_of h, dropWhile_eq_self_of (by simpa using h), List.reverse_reverse]

theorem underscore_not_mem_intReprL (n : Int) : '_' ∉ intReprL n := by
  intro h
  rcases intReprL_chars n _ h with h1 | h2
  · exact absurd h1 (by decide)
  · exact absurd h2 (by decide)

theorem pyIntL_intReprL (n : Int) : pyIntL (intReprL n) = some n := by
  have hstrip : stripWS (intReprL n) = intReprL n := stripWS_eq_self (intReprL_not_pySpace n)
  unfold pyIntL
  rw [hstrip]
  by_cases hn : n < 0
  · have hspec := natReprL_spec n.natAbs
    simp only [intReprL, if_pos hn]
    rw [if_neg (by simp), if_pos (by simp)]
    rw [if_pos ⟨by simpa using hspec.1, by simpa using List.all_eq_true.mpr hspec.2.1⟩]
    simp only [List.tail_cons, hspec.2.2]
    congr 1
    omega
  · have hspec := natReprL_spec n.toNat
    simp only [intReprL, if_neg hn]
    obtain ⟨c, ds, hcd⟩ : ∃ c ds, natReprL n.toNat = c :: ds := by
      cases h : natReprL n.toNat with
      | nil => exact absurd h hspec.1
      | cons c ds => exact ⟨c, ds, rfl⟩
    have hcdig : c.isDigit = true := hspec.2.1 c (hcd ▸ List.mem_cons_self c ds)
    rw [hcd]
    rw [if_neg (by simp)]
    rw [if_neg (by simp only [List.headD_cons]; rintro rfl; exact absurd hcdig (by decide))]
    rw [if_neg (by simp only [List.headD_cons]; rintro rfl; exact absurd hcdig (by decide))]
    rw [if_pos (by rw [← hcd]; exact List.all_eq_true.mpr hspec.2.1)]
    rw [← hcd, hspec.2.2]
    congr 1
    omega

/-! ### Lemmas: `str.split("_")` on canonical strings -/

theorem splitOnChar_cons (sep c : Char) (cs : List Char) :
    splitOnChar sep (c :: cs) =
      if c = sep then [] :: splitOnChar sep cs
      else (c :: (splitOnChar sep cs).headD []) :: (splitOnChar sep cs).tail := rfl

theorem splitOnChar_not_mem {sep : Char} {l : List Char} (h : sep ∉ l) :
    splitOnChar sep l = [l] := by
  induction l with
  | nil => rfl
  | cons c cs ih =>
    have hc : c ≠ sep := fun hh => h (hh ▸ List.mem_cons_self c cs)
    have hcs : sep ∉ cs := fun hh => h (List.mem_cons_of_mem c hh)
    rw [splitOnChar_cons, ih hcs, if_neg hc]
    simp

theorem splitOnChar_append {sep : Char} {a b : List Char} (h : sep ∉ a) :
    splitOnChar sep (a ++ sep :: b) = a :: splitOnChar sep b := by
  induction a with
  | nil =>
    show splitOnChar sep (sep :: b) = [] :: splitOnChar sep b
    rw [splitOnChar_cons, if_pos rfl]
  | cons c cs ih =>
    have hc : c ≠ sep := fun hh => h (hh ▸ List.mem_cons_self c cs)
    have hcs : sep ∉ cs := fun hh => h (List.mem_cons_of_mem c hh)
    show splitOnChar sep (c :: (cs ++ sep :: b)) = (c :: cs) :: splitOnChar sep b
    rw [splitOnChar_cons, ih hcs, if_neg hc]
    simp

theorem from_str_canonical (c i a : Int) :
    DataField.from_str (canonicalStr c i a) =
      if c ∈ fieldIds ∧ i ∈ instanceIds then .ok ⟨c, i, a⟩ else .error .validation := by
  have hdata : (canonicalStr c i a).data =
      intReprL c ++ '_' :: (intReprL i ++ '_' :: intReprL a) := by
    simp [canonicalStr]
  have hsplit : splitOnChar '_' (canonicalStr c i a).data =
      [intReprL c, intReprL i, intReprL a] := by
    rw [hdata, splitOnChar_append (underscore_not_mem_intReprL c),
      splitOnChar_append (underscore_not_mem_intReprL i),
      splitOnChar_not_mem (underscore_not_mem_intReprL a)]
  unfold DataField.from_str
  simp only [hsplit, List.getD_cons_zero, List.getD_cons_succ, pyIntL_intReprL]
  rfl

/-! ### C7, C9, C10: `DataField` claims -/

/-- C7: for every syntactically valid canonical string
`"<category>_<instance>_<array>"` (decimal token renderings, category and
instance in their enumerated domains), `from_str` inverts and `to_str`
re-renders the same string; and every malformed string (wrong
underscore-token count, or a token `int()` cannot parse) yields a parse
error. -/
theorem datafield_roundtrip :
    (∀ c i a : Int, c ∈ fieldIds → i ∈ instanceIds →
        DataField.from_str (canonicalStr c i a) = .ok ⟨c, i, a⟩ ∧
        DataField.to_str ⟨c, i, a⟩ = canonicalStr c i a) ∧
    (∀ s : String,
        ((splitOnChar '_' s.data).length ≠ 3 ∨
          ∃ k ∈ splitOnChar '_' s.data, pyIntL k = none) →
        DataField.from_str s = .error .parse) := by
  constructor
  · intro c i a hc hi
    refine ⟨?_, rfl⟩
    rw [from_str_canonical, if_pos ⟨hc, hi⟩]
  · intro s hs
    by_cases h3 : (splitOnChar '_' s.data).length = 3
    · rcases hs with hlen | ⟨k, hk, hnone⟩
      · exact absurd h3 hlen
      · obtain ⟨k0, k1, k2, heq⟩ := List.length_eq_three.mp h3
        unfold DataField.from_str
        rw [heq] at hk ⊢
        simp only [List.mem_cons, List.not_mem_nil, or_false] at hk
        rcases hp0 : pyIntL k0 with _ | v0 <;> rcases hp1 : pyIntL k1 with _ | v1 <;>
          rcases hp2 : pyIntL k2 with _ | v2 <;>
          simp only [List.getD_cons_zero, List.getD_cons_succ, hp0, hp1, hp2] <;>
          try rfl
        exfalso
        rcases hk with rfl | rfl | rfl
        · rw [hnone] at hp0; cases hp0
        · rw [hnone] at hp1; cases hp1
        · rw [hnone] at hp2; cases hp2
    · unfold DataField.from_str
      rw [if_neg h3]

/-- C7 witness: a concrete round trip and two concrete malformed strings. -/
theorem datafield_roundtrip_witness :
    DataField.from_str "20263_3_4" = .ok ⟨20263, 3, 4⟩ ∧
    DataField.to_str ⟨20263, 3, 4⟩ = "20263_3_4" ∧
    DataField.from_str "20263_3" = .error .parse ∧
    DataField.from_str "x_3_4" = .error .parse := by
  have h := datafield_roundtrip.1 20263 3 4 (by decide) (by decide)
  have hs : canonicalStr 20263 3 4 = "20263_3_4" := by decide
  have hm1 := datafield_roundtrip.2 "20263_3" (Or.inl (by decide))
  have hm2 := datafield_roundtrip.2 "x_3_4"
    (Or.inr ⟨['x'], by decide, by decide⟩)
  exact ⟨hs ▸ h.1, hs ▸ h.2, hm1, hm2⟩

/-- C9: the derived extension is the text extension exactly for category ids
in the contiguous range 25750–25755, the archive extension otherwise; the
boundary ids 25750 and 25755 map to text, while the allowed ids adjacent to
the range (20263 below, 31000 above) map to archive. -/
theorem datafield_extension_policy :
    (∀ df : DataField, df.field ∈ fieldIds →
        (df.extention = "txt" ↔ 25750 ≤ df.field ∧ df.field ≤ 25755) ∧
        (¬(25750 ≤ df.field ∧ df.field ≤ 25755) → df.extention = "zip")) ∧
    DataField.extention ⟨25750, 2, 0⟩ = "txt" ∧
    DataField.extention ⟨25755, 2, 0⟩ = "txt" ∧
    DataField.extention ⟨20263, 2, 0⟩ = "zip" ∧
    DataField.extention ⟨31000, 2, 0⟩ = "zip" := by
  refine ⟨?_, by decide, by decide, by decide, by decide⟩
  intro df _
  unfold DataField.extention
  split_ifs with h
  · exact ⟨⟨fun _ => by omega, fun _ => rfl⟩, fun hn => absurd (by omega) hn⟩
  · exact ⟨⟨fun ht => absurd ht (by decide), fun hc2 => absurd (by omega) h⟩, fun _ => rfl⟩

/-- C9 witness: the range characterisation applied at a concrete allowed
category id. -/
theorem datafield_extension_policy_witness :
    DataField.extention ⟨20227, 2, 0⟩ = "zip" := by
  exact (datafield_extension_policy.1 ⟨20227, 2, 0⟩ (by decide)).2 (by decide)

/-- C10: a well-formed three-integer-token canonical string is accepted only
when the category id is in the enumerated set and the instance is 2 or 3
(otherwise `from_str` raises a validation error), while the array token is
accepted for every integer, negative ones included. -/
theorem datafield_domain_validation :
    (∀ c i a : Int, (c ∉ fieldIds ∨ i ∉ instanceIds) →
        DataField.from_str (canonicalStr c i a) = .error .validation) ∧
    (∀ c i a : Int, c ∈ fieldIds → i ∈ instanceIds →
        DataField.from_str (canonicalStr c i a) = .ok ⟨c, i, a⟩) := by
  constructor
  · intro c i a h
    rw [from_str_canonical, if_neg (by tauto)]
  · intro c i a hc hi
    rw [from_str_canonical, if_pos ⟨hc, hi⟩]

/-- C10 witness: a well-formed string with an unknown category id fails
validation; a negative array parses. -/
theorem datafield_domain_validation_witness :
    DataField.from_str "1_2_0" = .error .validation ∧
    DataField.from_str "20252_2_-7" = .ok ⟨20252, 2, -7⟩ := by
  have h1 := datafield_domain_validation.1 1 2 0 (Or.inl (by decide))
  have h2 := datafield_domain_validation.2 20252 2 (-7) (by decide) (by decide)
  have e1 : canonicalStr 1 2 0 = "1_2_0" := by decide
  have e2 : canonicalStr 20252 2 (-7) = "20252_2_-7" := by decide
  exact ⟨e1 ▸ h1, e2 ▸ h2⟩

/-! ### Lemmas: the branch protocol -/

theorem checkout_active {b : String} {st st' : ParticipantState}
    (h : checkout b st = some st') : st' = { st with active := b } := by
  unfold checkout at h
  split at h
  · exact (Option.some.inj h).symm
  · cases h

theorem active_of_checkout {b : String} {st st' : ParticipantState}
    (h : checkout b st = some st') : st'.active = b := by
  rw [checkout_active h]

theorem checkout_of_mem {b : String} {st : ParticipantState} (h : b ∈ st.branches) :
    checkout b st = some { st with active := b } := by
  unfold checkout
  rw [if_pos h]

theorem checkout_or_create_eq (b : String) (st : ParticipantState) :
    checkout_or_create b st =
      { st with
          active := b,
          branches := (if b ∈ st.branches then st.branches else b :: st.branches) } := by
  unfold checkout_or_create
  split_ifs <;> rfl

theorem mem_checkout_or_create_branches {b x : String} {st : ParticipantState}
    (h : x ∈ st.branches) : x ∈ (checkout_or_create b st).branches := by
  rw [checkout_or_create_eq]
  split_ifs with hb
  · exact h
  · exact List.mem_cons_of_mem b h

/-! ### C1, C2: Retrieve idempotence and the branch invariant -/

/-- C1: when every descriptor's derived file already exists locally, the
Retrieve stage takes the empty-batch fast path: the fetch batch is empty, no
fetch and no commit occur, and files, ledger and active branch are all
unchanged; moreover whenever a run does fetch, the ledger it writes is a
deduplicated set (no duplicate entries). -/
theorem ukb_get_raw_idempotent :
    (∀ (label : Int) (dfs : List DataField) (fetched : List String)
        (st : ParticipantState),
        st.active ∈ st.branches →
        (∀ df ∈ dfs, df.to_filename label ∈ st.files) →
        fetchBatch label dfs st.files = [] ∧
        UKBParticipant.get_raw label dfs fetched st =
          some ({ st with branches := (checkout_or_create branch_incoming st).branches },
            ⟨0, 0⟩)) ∧
    (∀ (label : Int) (dfs : List DataField) (fetched : List String)
        (st st' : ParticipantState) (log : RetrieveLog),
        UKBParticipant.get_raw label dfs fetched st = some (st', log) →
        log.fetches = 1 → ∃ L, st'.ledger = some L ∧ L.Nodup) := by
  constructor
  · intro label dfs fetched st hact hfiles
    have hfb : fetchBatch label dfs st.files = [] := by
      rw [fetchBatch, List.filterMap_eq_nil_iff]
      intro df hdf
      rw [if_pos (hfiles df hdf)]
    refine ⟨hfb, ?_⟩
    have hfiles1 : (checkout_or_create branch_incoming st).files = st.files := by
      rw [checkout_or_create_eq]
    simp only [UKBParticipant.get_raw, hfiles1, hfb, List.isEmpty_nil, if_true]
    rw [checkout_of_mem (mem_checkout_or_create_branches hact)]
    rw [checkout_or_create_eq]
    rfl
  · intro label dfs fetched st st' log h hf
    simp only [UKBParticipant.get_raw] at h
    split at h
    · rw [Option.map_eq_some'] at h
      obtain ⟨st2, hc, heq⟩ := h
      cases heq
      exact absurd hf (by decide)
    · rw [Option.map_eq_some'] at h
      obtain ⟨st3, hc, heq⟩ := h
      cases heq
      exact ⟨_, by rw [checkout_active hc], List.nodup_dedup _⟩

/-- C1 witness: a subject whose single descriptor's file already exists takes
the fast path: empty batch, no fetch, no commit, state unchanged apart from
the created `incoming` branch. -/
theorem ukb_get_raw_idempotent_witness :
    fetchBatch 1 [⟨20252, 2, 0⟩] ["1_20252_2_0.zip"] = [] ∧
    UKBParticipant.get_raw 1 [⟨20252, 2, 0⟩] []
        ⟨["1_20252_2_0.zip"], none, "main", ["main"]⟩ =
      some (⟨["1_20252_2_0.zip"], none, "main", ["incoming", "main"]⟩, ⟨0, 0⟩) := by
  have h := ukb_get_raw_idempotent.1 1 [⟨20252, 2, 0⟩] []
    ⟨["1_20252_2_0.zip"], none, "main", ["main"]⟩ (by decide) (by decide)
  refine ⟨h.1, ?_⟩
  rw [h.2]
  decide

/-- C2: each completed stage transition restores the branch that was active
when it began: `convert_raw_to_native`, `convert_native_to_bids` and
`get_raw` all finish on the initially active branch. -/
theorem stage_transitions_restore_branch :
    (∀ st st' : ParticipantState,
        Participant.convert_raw_to_native st = some st' → st'.active = st.active) ∧
    (∀ st st' : ParticipantState,
        Participant.convert_native_to_bids st = some st' → st'.active = st.active) ∧
    (∀ (label : Int) (dfs : List DataField) (fetched : List String)
        (st st' : ParticipantState) (log : RetrieveLog),
        UKBParticipant.get_raw label dfs fetched st = some (st', log) →
        st'.active = st.active) := by
  refine ⟨?_, ?_, ?_⟩
  · intro st st' h
    simp only [Participant.convert_raw_to_native] at h
    obtain ⟨st1, h1, h⟩ := Option.bind_eq_some.mp h
    exact active_of_checkout h
  · intro st st' h
    simp only [Participant.convert_native_to_bids] at h
    obtain ⟨st1, h1, h⟩ := Option.bind_eq_some.mp h
    obtain ⟨st3, h3, h⟩ := Option.bind_eq_some.mp h
    obtain ⟨st4, h4, h⟩ := Option.bind_eq_some.mp h
    exact active_of_checkout h
  · intro label dfs fetched st st' log h
    simp only [UKBParticipant.get_raw] at h
    split at h <;>
    · rw [Option.map_eq_some'] at h
      obtain ⟨st2, hc, heq⟩ := h
      cases heq
      exact active_of_checkout hc

/-- C2 witness: the reorganize-and-merge transition at a concrete workspace
state ends on the branch that was active before it began. -/
theorem stage_transitions_restore_branch_witness :
    ∃ st', Participant.convert_native_to_bids
        ⟨[], none, "main", ["main", "incoming", "incoming-native"]⟩ = some st' ∧
      st'.active = "main" := by
  have hc : Participant.convert_native_to_bids
      ⟨[], none, "main", ["main", "incoming", "incoming-native"]⟩ =
      some ⟨[], none, "main", ["bids", "main", "incoming", "incoming-native"]⟩ := by
    decide
  exact ⟨_, hc, stage_transitions_restore_branch.2.1 _ _ hc⟩

/-! ### C3, C4: fetch artifacts and `do` stage dispatch -/

/-- C3: at a concrete fetch call, both returned artifact paths are one and
the same `<timestamp>.stderr` path, the destination directory ends up with a
single artifact file, and that file holds the captured stdout (the stderr
content was overwritten) — contradicting the claim that the two streams are
persisted as their own files and returned as (stdout, stderr). -/
theorem ukb_fetch_single_artifact :
    (UKBFetcher.fetchWrites "d" "2024-01-01T00-00-00" "OUT" "ERR").2.1 =
      (UKBFetcher.fetchWrites "d" "2024-01-01T00-00-00" "OUT" "ERR").2.2 ∧
    (UKBFetcher.fetchWrites "d" "2024-01-01T00-00-00" "OUT" "ERR").2.2 =
      "d/2024-01-01T00-00-00.stderr" ∧
    writeFiles [] (UKBFetcher.fetchWrites "d" "2024-01-01T00-00-00" "OUT" "ERR").1 =
      [("d/2024-01-01T00-00-00.stderr", "OUT")] := by
  exact ⟨rfl, rfl, by decide⟩

/-- C4: `Participant.do` calls the async `get_raw` without awaiting it, so
its event trace contains the Unpack stage but no Retrieve work at all — the
Unpack stage begins without the Retrieve stage's work having run. -/
theorem do_unpack_without_retrieve :
    StageEv.unpack ∈ Participant.do_events ∧
      StageEv.retrieve ∉ Participant.do_events := by
  decide

/-! ### C6: the concurrency ceiling -/

/-- C6: pydantic accepts a Fetch Scheduler `max_workers` exactly in [1, 20],
and `main` rejects any run configured with `max_workers` above 20 before any
subject work or fetch begins. -/
theorem fetcher_max_workers_validation :
    (∀ mw : Int, (mkUKBFetcher mw).isSome = true ↔ 1 ≤ mw ∧ mw ≤ 20) ∧
    (∀ (mw : Int) (work : List (Int × List String)) (dstE : Int → Bool)
        (sc : Bool) (mp : Option Nat) (dp : Bool), 20 < mw →
        mainRun mw work dstE sc mp dp =
          .error "UKB does not allow more than 20 simultaneous connections") := by
  constructor
  · intro mw
    unfold mkUKBFetcher
    split_ifs with h
    · simpa using h
    · simpa using h
  · intro mw work dstE sc mp dp h
    unfold mainRun
    rw [if_pos h]

/-- C6 witness: 21 workers rejected by both the constructor and `main`;
5 workers accepted. -/
theorem fetcher_max_workers_validation_witness :
    ¬((mkUKBFetcher 21).isSome = true) ∧
    mainRun 21 [] (fun _ => false) false none false =
      .error "UKB does not allow more than 20 simultaneous connections" ∧
    (mkUKBFetcher 5).isSome = true := by
  refine ⟨?_, ?_, ?_⟩
  · intro hs
    have := (fetcher_max_workers_validation.1 21).mp hs
    omega
  · exact fetcher_max_workers_validation.2 21 [] (fun _ => false) false none false (by omega)
  · exact (fetcher_max_workers_validation.1 5).mpr (by omega)

/-! ### Lemmas: the run coordinator -/

theorem manifest_not_in_flowLoop (dstE : Int → Bool) (sc : Bool) (mp : Option Nat)
    (rows : List (String × String)) :
    ∀ (work : List (Int × List String)) (i : Nat),
      FlowEv.manifestWrite rows ∉ flowLoop dstE sc mp i work := by
  intro work
  induction work with
  | nil =>
    intro i h
    simp [flowLoop] at h
  | cons r rest ih =>
    intro i h
    have hev : (if dstE r.1 && sc then FlowEv.skippedEv r.1 else FlowEv.spawned r.1) ≠
        FlowEv.manifestWrite rows := by
      split <;> simp
    simp only [flowLoop] at h
    split at h
    · rw [List.mem_singleton] at h
      exact hev h.symm
    · rcases List.mem_cons.mp h with h1 | h2
      · exact hev h1.symm
      · exact ih (i + 1) h2

/-! ### C8: the run manifest -/

/-- C8 counterexample: with a two-subject worklist and `max_participants = 0`
only the first subject's pipeline is spawned, yet the emitted manifest
contains a row for both subjects — the manifest has one row per worklist
subject, not one row per processed subject. -/
theorem flow_manifest_counterexample :
    flowEvents [(1, ["20252_2_0"]), (2, ["20252_2_0"])] (fun _ => false) false
        (some 0) true =
      [FlowEv.spawned 1,
        FlowEv.manifestWrite [("sub-1", "20252_2_0"), ("sub-2", "20252_2_0")]] ∧
    processedEids
        (flowEvents [(1, ["20252_2_0"]), (2, ["20252_2_0"])] (fun _ => false) false
          (some 0) true) = [1] := by
  exact ⟨by decide, by decide⟩

/-- C8 (amended): the manifest is emitted exactly when `do_participants` is
set, as the last event after the entire subject loop has completed, and it
contains exactly one row per worklist subject (whether processed, skipped by
shortcut, or cut off by `max_participants`), mapping the subject to
`sub-<label>` and the comma-joined canonical keys. -/
theorem flow_manifest_amended :
    ∀ (work : List (Int × List String)) (dstE : Int → Bool) (sc : Bool)
      (mp : Option Nat),
      (flowEvents work dstE sc mp true).getLast? =
        some (FlowEv.manifestWrite (work.map manifestRow)) ∧
      (work.map manifestRow).length = work.length ∧
      (∀ rows, FlowEv.manifestWrite rows ∈ flowLoop dstE sc mp 0 work → False) ∧
      (∀ rows, FlowEv.manifestWrite rows ∈ flowEvents work dstE sc mp false → False) := by
  intro work dstE sc mp
  refine ⟨?_, List.length_map _ _, ?_, ?_⟩
  · show (flowLoop dstE sc mp 0 work ++
      [FlowEv.manifestWrite (work.map manifestRow)]).getLast? = _
    exact List.getLast?_concat _
  · intro rows h
    exact manifest_not_in_flowLoop dstE sc mp rows work 0 h
  · intro rows h
    have he : flowEvents work dstE sc mp false = flowLoop dstE sc mp 0 work := by
      simp [flowEvents]
    rw [he] at h
    exact manifest_not_in_flowLoop dstE sc mp rows work 0 h

/-- C8 witness: the amended manifest property at a concrete worklist. -/
theorem flow_manifest_amended_witness :
    (flowEvents [(7, ["20252_2_0", "25750_2_0"])] (fun _ => false) false none
        true).getLast? =
      some (FlowEv.manifestWrite [("sub-7", "20252_2_0,25750_2_0")]) ∧
    FlowEv.manifestWrite [] ∉
      flowEvents [(7, ["20252_2_0", "25750_2_0"])] (fun _ => false) false none false := by
  have h := flow_manifest_amended [(7, ["20252_2_0", "25750_2_0"])]
    (fun _ => false) false none
  constructor
  · have e : [((7 : Int), ["20252_2_0", "25750_2_0"])].map manifestRow =
        [("sub-7", "20252_2_0,25750_2_0")] := by decide
    have h1 := h.1
    rwa [e] at h1
  · exact fun hm => h.2.2.2 [] hm

/-! ### Lemmas: the worklist builder -/

theorem filterMap_filter_isSome {α β : Type _} {q : α → Bool} {g : α → Option β}
    (hg : ∀ p, q p = false → g p = none) :
    ∀ l : List α, (l.filter q).filterMap g = l.filterMap g := by
  intro l
  induction l with
  | nil => rfl
  | cons a t ih =>
    by_cases h : q a = true
    · rw [List.filter_cons_of_pos h, List.filterMap_cons, List.filterMap_cons, ih]
    · have hn : g a = none := hg a (by simpa using h)
      rw [List.filter_cons_of_neg (by simpa using h), ih, List.filterMap_cons, hn]

theorem filterMap_rows_unique {β γ : Type _} {e : Int} :
    ∀ {rows : List (Int × β)} {r : Int × β}, rows.Nodup → r ∈ rows → r.1 = e →
      (∀ x ∈ rows, x.1 = e → x = r) → ∀ g : Int × β → Option γ,
      (rows.filterMap fun x => if x.1 = e then g x else none) = (g r).toList := by
  intro rows
  induction rows with
  | nil => intro r _ hr; cases hr
  | cons a t ih =>
    intro r hnd hr he uniq g
    rcases List.mem_cons.mp hr with rfl | hrt
    · have hrest : (t.filterMap fun x => if x.1 = e then g x else none) = [] := by
        rw [List.filterMap_eq_nil_iff]
        intro x hx
        have hxne : ¬(x.1 = e) := by
          intro hxe
          have hxr := uniq x (List.mem_cons_of_mem _ hx) hxe
          exact (List.nodup_cons.mp hnd).1 (hxr ▸ hx)
        rw [if_neg hxne]
      rw [List.filterMap_cons, if_pos he, hrest]
      cases g r <;> rfl
    · have hane : ¬(a.1 = e) := by
        intro hae
        have har := uniq a (List.mem_cons_self a t) hae
        exact (List.nodup_cons.mp hnd).1 (har ▸ hrt)
      rw [List.filterMap_cons, if_neg hane]
      exact ih (List.nodup_cons.mp hnd).2 hrt he
        (fun x hx hxe => uniq x (List.mem_cons_of_mem _ hx) hxe) g

theorem flatMap_toList_eq_filterMap {α β : Type _} (g : α → Option β) :
    ∀ l : List α, (l.flatMap fun c => (g c).toList) = l.filterMap g := by
  intro l
  induction l with
  | nil => rfl
  | cons a t ih =>
    rw [List.flatMap_cons, ih, List.filterMap_cons]
    cases g a <;> rfl

theorem filterMap_flatMap {α β γ : Type _} (l : List α) (f : α → List β)
    (g : β → Option γ) :
    (l.flatMap f).filterMap g = l.flatMap fun a => (f a).filterMap g := by
  induction l with
  | nil => rfl
  | cons a t ih => rw [List.flatMap_cons, List.flatMap_cons, List.filterMap_append, ih]

theorem get_ukb_collect (df : UKBFrame)
    (hnd : (df.rows.map fun r => r.1).Nodup) {r : Int × List (Option String)}
    (hr : r ∈ df.rows) (hm : rowMandatory df.cols r = true) :
    ((meltedNN df).filterMap fun p => if p.1 = r.1 then p.2 else none) =
      (selCols df.cols).filterMap fun c => cellOf df.cols r.2 c := by
  have h1 : ((meltedNN df).filterMap fun p => if p.1 = r.1 then p.2 else none) =
      (melted df).filterMap fun p => if p.1 = r.1 then p.2 else none := by
    apply filterMap_filter_isSome
    intro p hp
    have hpn : p.2 = none := Option.not_isSome_iff_eq_none.mp (by simp [hp])
    rw [hpn]
    split <;> rfl
  rw [h1]
  unfold melted
  rw [filterMap_flatMap]
  have h2 : ∀ c, ((df.rows.filter (rowMandatory df.cols)).map
        fun r' => (r'.1, cellOf df.cols r'.2 c)).filterMap
        (fun p => if p.1 = r.1 then p.2 else none) =
      (cellOf df.cols r.2 c).toList := by
    intro c
    rw [List.filterMap_map]
    have hrowsnd : (df.rows.filter (rowMandatory df.cols)).Nodup :=
      (List.Nodup.of_map _ hnd).filter _
    have hrF : r ∈ df.rows.filter (rowMandatory df.cols) :=
      List.mem_filter.mpr ⟨hr, hm⟩
    have huniq : ∀ x ∈ df.rows.filter (rowMandatory df.cols), x.1 = r.1 → x = r :=
      fun x hx hxe =>
        List.inj_on_of_nodup_map hnd (List.mem_filter.mp hx).1 hr hxe
    exact filterMap_rows_unique hrowsnd hrF rfl huniq
      (fun r' => cellOf df.cols r'.2 c)
  simp only [h2]
  exact flatMap_toList_eq_filterMap _ _

theorem mem_outEids {df : UKBFrame} {e : Int} :
    e ∈ outEids df ↔ e ∈ (meltedNN df).map fun p => p.1 := by
  unfold outEids
  rw [List.mem_insertionSort, List.mem_dedup]

theorem map_fst_get_ukb (df : UKBFrame) :
    (get_ukb df).map (fun p => p.1) = outEids df := by
  unfold get_ukb
  rw [List.map_map]
  show List.map (fun e => e) (outEids df) = outEids df
  exact List.map_id' _

theorem exists_row_of_mem_eids {df : UKBFrame} {e : Int}
    (h : e ∈ (get_ukb df).map fun p => p.1) :
    ∃ r ∈ df.rows, r.1 = e ∧ rowMandatory df.cols r = true := by
  rw [map_fst_get_ukb, mem_outEids] at h
  obtain ⟨p, hp, hpe⟩ := List.mem_map.mp h
  have hpm : p ∈ melted df := (List.mem_filter.mp hp).1
  unfold melted at hpm
  obtain ⟨c, hc, hpc⟩ := List.mem_flatMap.mp hpm
  obtain ⟨r', hr', hre⟩ := List.mem_map.mp hpc
  have h1 := List.mem_filter.mp hr'
  refine ⟨r', h1.1, ?_, h1.2⟩
  have : p.1 = r'.1 := by rw [← hre]
  rw [← hpe, this]

theorem mandCol_mem_selCols {cols : List String} (h : mandCol ∈ cols) :
    mandCol ∈ selCols cols := by
  unfold selCols
  rw [List.mem_flatMap]
  refine ⟨20252, by decide, ?_⟩
  rw [List.mem_filter]
  exact ⟨h, by decide⟩

theorem mem_eids_of_mandatory {df : UKBFrame} {r : Int × List (Option String)}
    (hr : r ∈ df.rows) (hm : rowMandatory df.cols r = true) (hc : mandCol ∈ df.cols) :
    r.1 ∈ (meltedNN df).map fun p => p.1 := by
  rw [List.mem_map]
  refine ⟨(r.1, cellOf df.cols r.2 mandCol), ?_, rfl⟩
  unfold meltedNN
  rw [List.mem_filter]
  constructor
  · unfold melted
    rw [List.mem_flatMap]
    refine ⟨mandCol, mandCol_mem_selCols hc, ?_⟩
    rw [List.mem_map]
    exact ⟨r, List.mem_filter.mpr ⟨hr, hm⟩, rfl⟩
  · exact hm

/-! ### C5: the worklist builder -/

/-- C5 counterexample: `select` reorders the columns into the
category-enumeration order of the selector list, so when the source's columns
are not already in that order the per-subject descriptor order does not
follow the source order: with source columns ["25750-2.0", "20252-2.0"] the
builder outputs the 20252 value before the 25750 value while the source
order lists the 25750 value first. -/
theorem worklist_builder_counterexample :
    get_ukb ⟨["25750-2.0", "20252-2.0"], [(1, [some "25750_2_0", some "20252_2_0"])]⟩ =
      [(1, ["20252_2_0", "25750_2_0"])] ∧
    specSourceOrderFields ["25750-2.0", "20252-2.0"]
        [some "25750_2_0", some "20252_2_0"] =
      ["25750_2_0", "20252_2_0"] ∧
    ["20252_2_0", "25750_2_0"] ≠ ["25750_2_0", "20252_2_0"] := by
  exact ⟨by decide, by decide, by decide⟩

/-- C5 (amended): the worklist builder excludes every subject row lacking
the mandatory T1-structural field (its presence is a necessary condition for
inclusion), tolerates rows whose only descriptor is the mandatory one, and
orders its output by subject id ascending — with per-subject descriptor
order following the selector (category-enumeration) order, source order
within each category, rather than plain source column order. -/
theorem worklist_builder_amended :
    ∀ df : UKBFrame,
      ((df.rows.map fun r => r.1).Nodup) → mandCol ∈ df.cols →
      (∀ r ∈ df.rows,
          (∀ c ∈ df.cols, strStarts c (intRepr 20252) = true →
            cellOf df.cols r.2 c = none) →
          r.1 ∉ (get_ukb df).map fun p => p.1) ∧
      (∀ e ∈ (get_ukb df).map fun p => p.1,
          ∃ r ∈ df.rows, r.1 = e ∧ (cellOf df.cols r.2 mandCol).isSome = true) ∧
      (∀ r ∈ df.rows, (cellOf df.cols r.2 mandCol).isSome = true →
          (r.1, (selCols df.cols).filterMap fun c => cellOf df.cols r.2 c) ∈
            get_ukb df) ∧
      List.Sorted (· ≤ ·) ((get_ukb df).map fun p => p.1) := by
  intro df hnd hc
  refine ⟨?_, ?_, ?_, ?_⟩
  · intro r hr hnone hmem
    obtain ⟨r', hr', hre, hrm⟩ := exists_row_of_mem_eids hmem
    have hrr : r' = r := List.inj_on_of_nodup_map hnd hr' hr hre
    subst hrr
    have hmand := hnone mandCol hc (by decide)
    unfold rowMandatory at hrm
    rw [hmand] at hrm
    cases hrm
  · intro e he
    obtain ⟨r, hr, hre, hrm⟩ := exists_row_of_mem_eids he
    exact ⟨r, hr, hre, hrm⟩
  · intro r hr hm
    have hm' : rowMandatory df.cols r = true := hm
    have he : r.1 ∈ outEids df := mem_outEids.mpr (mem_eids_of_mandatory hr hm' hc)
    have hmem : (r.1, (meltedNN df).filterMap fun p => if p.1 = r.1 then p.2 else none)
        ∈ get_ukb df := List.mem_map_of_mem _ he
    rwa [get_ukb_collect df hnd hr hm'] at hmem
  · rw [map_fst_get_ukb]
    unfold outEids
    exact List.sorted_insertionSort _ _

/-- C5 witness: the amended builder properties at a concrete frame — a row
lacking the mandatory T1 field is excluded, a row whose only descriptor is
the mandatory one is included with that single field. -/
theorem worklist_builder_amended_witness :
    (2, ["20252_2_0"]) ∈
      get_ukb ⟨["20252-2.0"], [(1, [none]), (2, [some "20252_2_0"])]⟩ ∧
    1 ∉ ((get_ukb ⟨["20252-2.0"], [(1, [none]), (2, [some "20252_2_0"])]⟩).map
      fun p => p.1) := by
  have h := worklist_builder_amended
    ⟨["20252-2.0"], [(1, [none]), (2, [some "20252_2_0"])]⟩ (by decide) (by decide)
  constructor
  · have h3 := h.2.2.1 (2, [some "20252_2_0"]) (by decide) (by decide)
    have e : (selCols ["20252-2.0"]).filterMap
        (fun c => cellOf ["20252-2.0"] [some "20252_2_0"] c) = ["20252_2_0"] := by
      decide
    rwa [e] at h3
  · exact h.1 (1, [none]) (by decide) (by decide)

end Std2Bids
